import Mathlib

/-!
Shallow embedding of the particle transport subsystem of the
tjhei/aspect-freesurface-test repository:
`src/include/aspect/particle/integrator.h` (Euler / RK2 / RK4 integrators)
and `src/include/aspect/particle/world.h` (the particle World: generation,
cell location, inter-worker exchange, timestep driver, count invariant).

C++ doubles are modelled as exact rationals (`ℚ`); a deal.II `Point<dim>`
is a function `Fin dim → ℚ`; `std::map<double, Point<dim>>` is an
association list with C++ `operator[]` semantics (lookup inserts a
default-constructed zero vector when the key is absent); the fixed set of
MPI workers is a list of per-worker states, and each collective is a pure
function over that list.  Fatal conditions (`AssertThrow`, `MPI_Abort`)
are the `Except.error` branch of an `Except String` result.
-/

namespace Aspect

/-- A deal.II `Point<dim>`: a `dim`-dimensional rational vector. -/
abbrev Pt (dim : Nat) := Fin dim → ℚ

/-- Componentwise division of a point by a scalar (deal.II `Point / double`). -/
def sdiv {dim : Nat} (v : Pt dim) (c : ℚ) : Pt dim := fun i => v i / c

/-- A deal.II cell handle: refinement level and index within the level
(`LevelInd = std::pair<int, int>` in `world.h`). -/
abbrev LevelInd := Int × Int

/-- The sentinel `(-1, -1)` handle returned by `find_cell` when no cell
contains the particle. -/
def notFound : LevelInd := (-1, -1)

/-- Modelled from the spec: the particle type `T` (file
`aspect/particle/particle.h` is referenced by the sources but absent from
the repository snapshot; §3/§4.1 of the spec list its attributes: a
numeric identifier stored as a real number, position, last sampled
velocity, and the "is local" flag, each with plain getters/setters as used
by `world.h` and `integrator.h`). -/
structure Particle (dim : Nat) where
  id : ℚ
  location : Pt dim
  velocity : Pt dim
  isLocal : Bool
deriving DecidableEq

/-- Model of `std::map<double, Point<dim>>`: an association list from particle id
to auxiliary vector.  Only content (lookup results) matters to the
embedded code, not the red-black-tree layout. -/
abbrev PMap (dim : Nat) := List (ℚ × Pt dim)

namespace PMap

/-- Lookup without insertion (`map::find`). -/
def find? {dim : Nat} : PMap dim → ℚ → Option (Pt dim)
  | [], _ => none
  | (k, v) :: rest, key => if k = key then some v else find? rest key

/-- Model of `m[key] = v` on a `std::map`: overwrite the entry if present,
otherwise insert it. -/
def set {dim : Nat} : PMap dim → ℚ → Pt dim → PMap dim
  | [], key, v => [(key, v)]
  | (k, w) :: rest, key, v =>
      if k = key then (k, v) :: rest else (k, w) :: set rest key v

/-- Reading `m[key]` on a `std::map`: if the key is absent a
default-constructed (zero) `Point` is inserted and returned. -/
def get {dim : Nat} (m : PMap dim) (key : ℚ) : Pt dim × PMap dim :=
  match m.find? key with
  | some v => (v, m)
  | none => (0, m.set key 0)

end PMap

/-! ## Integrators (`integrator.h`)

Each integrator's `integrate_step` walks the particle multimap with an
iterator, so the embedding processes the population list front to back,
threading the auxiliary maps through the walk. -/

/-- One particle update of `EulerIntegrator::integrate_step`:
`set_location(loc + dt*vel)` for every particle (integrator.h:70-74). -/
def eulerGo {dim : Nat} (dt : ℚ) :
    List (LevelInd × Particle dim) → List (LevelInd × Particle dim)
  | [] => []
  | (c, p) :: rest =>
      (c, { p with location := p.location + dt • p.velocity }) :: eulerGo dt rest

/-- Model of `EulerIntegrator::integrate_step` (integrator.h:66-77): update every
particle, then `return false`. -/
def eulerStep {dim : Nat} (particles : List (LevelInd × Particle dim)) (dt : ℚ) :
    List (LevelInd × Particle dim) × Bool :=
  (eulerGo dt particles, false)

/-- Internal state of `RK2Integrator`: the sub-step counter `_step` and
the auxiliary map `_loc0` (integrator.h:88-90). -/
structure RK2State (dim : Nat) where
  step : Nat
  loc0 : PMap dim
deriving DecidableEq

/-- Model of `RK2Integrator::RK2Integrator()` (integrator.h:93-96). -/
def rk2Init {dim : Nat} : RK2State dim := ⟨0, []⟩

/-- The particle loop of `RK2Integrator::integrate_step`
(integrator.h:103-115), threading `_loc0` through the iteration.  At an
out-of-range `_step` the `else` branch is only the comment `// Error!`:
the particle is left untouched. -/
def rk2Go {dim : Nat} (dt : ℚ) (step : Nat) :
    PMap dim → List (LevelInd × Particle dim) →
    PMap dim × List (LevelInd × Particle dim)
  | m, [] => (m, [])
  | m, (c, p) :: rest =>
      if step = 0 then
        let m1 := m.set p.id p.location
        let p1 := { p with location := p.location + ((1/2 : ℚ) * dt) • p.velocity }
        let (m2, ps) := rk2Go dt step m1 rest
        (m2, (c, p1) :: ps)
      else if step = 1 then
        let (l0, m1) := m.get p.id
        let p1 := { p with location := l0 + dt • p.velocity }
        let (m2, ps) := rk2Go dt step m1 rest
        (m2, (c, p1) :: ps)
      else
        let (m2, ps) := rk2Go dt step m rest
        (m2, (c, p) :: ps)

/-- Model of `RK2Integrator::integrate_step` (integrator.h:98-122): run the
particle loop, clear `_loc0` when the finishing sub-step ran, advance
`_step` modulo 2, and report whether more sub-steps are needed. -/
def rk2Step {dim : Nat} (s : RK2State dim)
    (particles : List (LevelInd × Particle dim)) (dt : ℚ) :
    RK2State dim × List (LevelInd × Particle dim) × Bool :=
  let (m, ps) := rk2Go dt s.step s.loc0 particles
  let m1 := if s.step = 1 then [] else m
  let step1 := (s.step + 1) % 2
  (⟨step1, m1⟩, ps, step1 != 0)

/-- Internal state of `RK4Integrator`: `_step` and the auxiliary maps
`_loc0, _k1, _k2, _k3` (integrator.h:174-175). -/
structure RK4State (dim : Nat) where
  step : Nat
  loc0 : PMap dim
  k1 : PMap dim
  k2 : PMap dim
  k3 : PMap dim
deriving DecidableEq

/-- Model of `RK4Integrator::RK4Integrator()` (integrator.h:178-184). -/
def rk4Init {dim : Nat} : RK4State dim := ⟨0, [], [], [], []⟩

/-- The particle loop of `RK4Integrator::integrate_step`
(integrator.h:191-211), threading the four auxiliary maps; each C++
`operator[]` read is a `PMap.get` (with its insert-if-absent side
effect).  The out-of-range `else` branch is only the comment `// Error!`. -/
def rk4Go {dim : Nat} (dt : ℚ) (step : Nat) :
    PMap dim × PMap dim × PMap dim × PMap dim →
    List (LevelInd × Particle dim) →
    (PMap dim × PMap dim × PMap dim × PMap dim) × List (LevelInd × Particle dim)
  | ms, [] => (ms, [])
  | (l0, k1, k2, k3), (c, p) :: rest =>
      if step = 0 then
        let l0a := l0.set p.id p.location
        let k1a := k1.set p.id (dt • p.velocity)
        let (k1v, k1b) := k1a.get p.id
        let p1 := { p with location := p.location + (1/2 : ℚ) • k1v }
        let (ms2, ps) := rk4Go dt step (l0a, k1b, k2, k3) rest
        (ms2, (c, p1) :: ps)
      else if step = 1 then
        let k2a := k2.set p.id (dt • p.velocity)
        let (l0v, l0a) := l0.get p.id
        let (k2v, k2b) := k2a.get p.id
        let p1 := { p with location := l0v + (1/2 : ℚ) • k2v }
        let (ms2, ps) := rk4Go dt step (l0a, k1, k2b, k3) rest
        (ms2, (c, p1) :: ps)
      else if step = 2 then
        let k3a := k3.set p.id (dt • p.velocity)
        let (l0v, l0a) := l0.get p.id
        let (k3v, k3b) := k3a.get p.id
        let p1 := { p with location := l0v + k3v }
        let (ms2, ps) := rk4Go dt step (l0a, k1, k2, k3b) rest
        (ms2, (c, p1) :: ps)
      else if step = 3 then
        let k4 := dt • p.velocity
        let (l0v, l0a) := l0.get p.id
        let (k1v, k1a) := k1.get p.id
        let (k2v, k2a) := k2.get p.id
        let (k3v, k3a) := k3.get p.id
        let newloc := l0v + sdiv (k1v + (2 : ℚ) • k2v + (2 : ℚ) • k3v + k4) 6
        let p1 := { p with location := newloc }
        let (ms2, ps) := rk4Go dt step (l0a, k1a, k2a, k3a) rest
        (ms2, (c, p1) :: ps)
      else
        let (ms2, ps) := rk4Go dt step (l0, k1, k2, k3) rest
        (ms2, (c, p) :: ps)

/-- Model of `RK4Integrator::integrate_step` (integrator.h:186-223): run the
particle loop, advance `_step` modulo 4, clear all four auxiliary maps
when the counter wrapped to 0, and report whether more sub-steps remain. -/
def rk4Step {dim : Nat} (s : RK4State dim)
    (particles : List (LevelInd × Particle dim)) (dt : ℚ) :
    RK4State dim × List (LevelInd × Particle dim) × Bool :=
  let (ms, ps) := rk4Go dt s.step (s.loc0, s.k1, s.k2, s.k3) particles
  let step1 := (s.step + 1) % 4
  if step1 = 0 then
    (⟨step1, [], [], [], []⟩, ps, step1 != 0)
  else
    (⟨step1, ms.1, ms.2.1, ms.2.2.1, ms.2.2.2⟩, ps, step1 != 0)

/-! ## Integrator wire formats (`integrator.h`)

A buffer of doubles is a `List ℚ`; the C++ `char *` cursor advances by
`sizeof(double) = 8` bytes per element written or read, so the byte
advance of an operation is 8 times the number of elements it touches. -/

/-- Model of `sizeof(double)`. -/
def sizeofDouble : Nat := 8

/-- Model of `EulerIntegrator::data_len` (integrator.h:79): no auxiliary data. -/
def eulerDataLen (dim : Nat) : Nat := 0

/-- Model of `RK2Integrator::data_len` for `MPI_DATA`/`HDF5_DATA`
(integrator.h:129-136): `dim*sizeof(double)` bytes. -/
def rk2DataLen (dim : Nat) : Nat := dim * sizeofDouble

/-- Model of `RK4Integrator::data_len` for `MPI_DATA`/`HDF5_DATA`
(integrator.h:233-240): `4*dim*sizeof(double)` bytes. -/
def rk4DataLen (dim : Nat) : Nat := 4 * dim * sizeofDouble

/-- Serialize one auxiliary vector: the loop
`for (i=0;i<dim;++i) { ((double*)p)[0] = m[id](i); p += sizeof(double); }`.
The `operator[]` read inserts a zero vector when `id` is absent. -/
def writeVec {dim : Nat} (m : PMap dim) (idn : ℚ) : List ℚ × PMap dim :=
  let (v, m1) := m.get idn
  ((List.finRange dim).map v, m1)

/-- Deserialize one auxiliary vector: the loop
`for (i=0;i<dim;++i) { m[id](i) = ((double*)p)[0]; p += sizeof(double); }`:
the entry for `id` becomes the next `dim` doubles of the stream and the
cursor advances past them. -/
def readVec (dim : Nat) (stream : List ℚ) : Pt dim × List ℚ :=
  (fun i => stream.getD i 0, stream.drop dim)

/-- Model of `RK2Integrator::write_data` (integrator.h:153-167): write `_loc0[id]`. -/
def rk2WriteData {dim : Nat} (s : RK2State dim) (idn : ℚ) :
    List ℚ × RK2State dim :=
  let (o, m1) := writeVec s.loc0 idn
  (o, { s with loc0 := m1 })

/-- Model of `RK2Integrator::read_data` (integrator.h:138-151): read `_loc0[id]`. -/
def rk2ReadData {dim : Nat} (s : RK2State dim) (idn : ℚ) (stream : List ℚ) :
    RK2State dim × List ℚ :=
  let (v, rest) := readVec dim stream
  ({ s with loc0 := s.loc0.set idn v }, rest)

/-- Model of `RK4Integrator::write_data` (integrator.h:261-279): write `_loc0[id]`,
then `_k1[id]`, `_k2[id]`, `_k3[id]`. -/
def rk4WriteData {dim : Nat} (s : RK4State dim) (idn : ℚ) :
    List ℚ × RK4State dim :=
  let (o0, l0) := writeVec s.loc0 idn
  let (o1, m1) := writeVec s.k1 idn
  let (o2, m2) := writeVec s.k2 idn
  let (o3, m3) := writeVec s.k3 idn
  (o0 ++ o1 ++ o2 ++ o3, { s with loc0 := l0, k1 := m1, k2 := m2, k3 := m3 })

/-- Model of `RK4Integrator::read_data` (integrator.h:242-259): read `_loc0[id]`,
then `_k1[id]`, `_k2[id]`, `_k3[id]`. -/
def rk4ReadData {dim : Nat} (s : RK4State dim) (idn : ℚ) (stream : List ℚ) :
    RK4State dim × List ℚ :=
  let (v0, r0) := readVec dim stream
  let (v1, r1) := readVec dim r0
  let (v2, r2) := readVec dim r1
  let (v3, r3) := readVec dim r2
  ({ s with loc0 := s.loc0.set idn v0, k1 := s.k1.set idn v1,
            k2 := s.k2.set idn v2, k3 := s.k3.set idn v3 }, r3)

/-! ## The mesh provider and `find_cell` (`world.h`)

The deal.II triangulation is abstracted by the operations `world.h`
invokes on it: handle validity (`iterator != end`), point containment,
leafness (`active()`), local ownership, children, the level-0 cells, the
active cells, and cell measures.  `maxDepth` bounds the refinement depth
and serves as fuel for the recursive descent. -/

structure Mesh (dim : Nat) where
  validCell : LevelInd → Bool
  pointInside : LevelInd → Pt dim → Bool
  active : LevelInd → Bool
  locallyOwned : LevelInd → Bool
  children : LevelInd → List LevelInd
  level0 : List LevelInd
  activeCells : List LevelInd
  measure : LevelInd → ℚ
  maxDepth : Nat

/-- Model of `World::recursive_find_cell` (world.h:170-200): if the handle is
valid and the cell contains the particle's position, finish at an active
cell (setting the particle's local flag to the cell's ownership) or
recurse into the children, returning the first success; otherwise report
`(-1,-1)`.  Descent is fueled by the mesh's refinement-depth bound. -/
def recursiveFindCell {dim : Nat} (m : Mesh dim) :
    Nat → Particle dim → LevelInd → Particle dim × LevelInd
  | 0, p, _ => (p, notFound)
  | fuel + 1, p, cur =>
      if m.validCell cur && m.pointInside cur p.location then
        if m.active cur then
          ({ p with isLocal := m.locallyOwned cur }, cur)
        else
          (m.children cur).foldl
            (fun acc child =>
              if acc.2.1 != -1 && acc.2.2 != -1 then acc
              else recursiveFindCell m fuel p child)
            (p, notFound)
      else
        (p, notFound)

/-- The last-resort linear scan over all active cells
(world.h:421-428) followed by the "outside the mesh" result
(world.h:430-432); the `Nat` accumulator counts top-down root searches
already performed. -/
def findCellScan {dim : Nat} (m : Mesh dim) (p : Particle dim) :
    List LevelInd → Nat → Particle dim × LevelInd × Nat
  | [], n => ({ p with isLocal := false }, notFound, n)
  | c :: cs, n =>
      if m.pointInside c p.location then
        ({ p with isLocal := m.locallyOwned c }, c, n)
      else
        findCellScan m p cs n

/-- The top-down search loop over the level-0 cells (world.h:412-416),
counting each `recursive_find_cell` invocation. -/
def findCellRoots {dim : Nat} (m : Mesh dim) (p : Particle dim) :
    List LevelInd → Nat → Particle dim × LevelInd × Nat
  | [], n => findCellScan m p m.activeCells n
  | r :: rs, n =>
      let res := recursiveFindCell m m.maxDepth p r
      if res.2.1 != -1 && res.2.2 != -1 then (res.1, res.2, n + 1)
      else findCellRoots m p rs (n + 1)

/-- Model of `World::find_cell` (world.h:394-433).  Fast path: when the
triangulation has not changed and the hinted cell is valid, contains the
position, and is active, return the hint immediately and set the
particle's local flag from the cell's ownership.  Otherwise search
top-down from the level-0 cells, then fall back to the linear active-cell
scan, and finally mark the particle non-local with the `(-1,-1)` handle.
The third component instruments the number of top-down root-cell
searches performed (0 on the fast path). -/
def findCell {dim : Nat} (m : Mesh dim) (triChanged : Bool)
    (p : Particle dim) (cur : LevelInd) : Particle dim × LevelInd × Nat :=
  if !triChanged && m.validCell cur && m.pointInside cur p.location
      && m.active cur then
    ({ p with isLocal := m.locallyOwned cur }, cur, 0)
  else
    findCellRoots m p m.level0 0

/-- The relocation loop of `World::find_all_cells` (world.h:333-351):
particles whose found handle equals their key stay in place; the others
are collected into `tmp_map` and re-inserted under the found handle. -/
def findAllGo {dim : Nat} (m : Mesh dim) (triChanged : Bool) :
    List (LevelInd × Particle dim) →
    List (LevelInd × Particle dim) × List (LevelInd × Particle dim)
  | [] => ([], [])
  | (k, p) :: rest =>
      let res := findCell m triChanged p k
      let (stay, tmp) := findAllGo m triChanged rest
      if res.2.1 = k then ((k, res.1) :: stay, tmp)
      else (stay, (res.2.1, res.1) :: tmp)

/-- Model of `World::find_all_cells` (world.h:333-351): relocate every particle
and re-key the moved ones. -/
def findAllCells {dim : Nat} (m : Mesh dim) (triChanged : Bool)
    (particles : List (LevelInd × Particle dim)) :
    List (LevelInd × Particle dim) :=
  let (stay, tmp) := findAllGo m triChanged particles
  stay ++ tmp

/-! ## The World (`world.h`)

The fixed MPI communicating group is a list of per-worker states; every
collective is a pure function of that list.  Each worker owns its mesh
view, its particle multimap, its integrator instance, and its copy of
`global_sum_particles`.  The `_triangulation_changed` flags are set by
the collective `post_refinement` signal and therefore agree across
workers; the model keeps a single flag in the global state. -/

/-- The polymorphic `Integrator<dim, T>*` held by the World: one of the
three schemes together with its internal state. -/
inductive Integ (dim : Nat) where
  | euler
  | rk2 (s : RK2State dim)
  | rk4 (s : RK4State dim)
deriving DecidableEq

/-- Virtual dispatch of `integrate_step`. -/
def Integ.intStep {dim : Nat} :
    Integ dim → List (LevelInd × Particle dim) → ℚ →
    Integ dim × List (LevelInd × Particle dim) × Bool
  | .euler, ps, dt =>
      let (ps1, r) := eulerStep ps dt
      (.euler, ps1, r)
  | .rk2 s, ps, dt =>
      let (s1, ps1, r) := rk2Step s ps dt
      (.rk2 s1, ps1, r)
  | .rk4 s, ps, dt =>
      let (s1, ps1, r) := rk4Step s ps dt
      (.rk4 s1, ps1, r)

/-- Virtual dispatch of `data_len(MPI_DATA)`. -/
def Integ.dataLen {dim : Nat} : Integ dim → Nat
  | .euler => eulerDataLen dim
  | .rk2 _ => rk2DataLen dim
  | .rk4 _ => rk4DataLen dim

/-- Virtual dispatch of `write_data(MPI_DATA, id, ptr)`. -/
def Integ.writeData {dim : Nat} : Integ dim → ℚ → List ℚ × Integ dim
  | .euler, _ => ([], .euler)
  | .rk2 s, idn =>
      let (o, s1) := rk2WriteData s idn
      (o, .rk2 s1)
  | .rk4 s, idn =>
      let (o, s1) := rk4WriteData s idn
      (o, .rk4 s1)

/-- Virtual dispatch of `read_data(MPI_DATA, id, ptr)`. -/
def Integ.readData {dim : Nat} : Integ dim → ℚ → List ℚ → Integ dim × List ℚ
  | .euler, _, stream => (.euler, stream)
  | .rk2 s, idn, stream =>
      let (s1, rest) := rk2ReadData s idn stream
      (.rk2 s1, rest)
  | .rk4 s, idn, stream =>
      let (s1, rest) := rk4ReadData s idn stream
      (.rk4 s1, rest)

/-- One MPI rank's `World` state: its view of the triangulation, the
local particle multimap `_particles`, its integrator instance, and its
copy of `global_sum_particles` (a C++ double). -/
structure Worker (dim : Nat) where
  mesh : Mesh dim
  particles : List (LevelInd × Particle dim)
  integ : Integ dim
  globalSum : ℚ

/-- The distributed state: the communicating group in rank order plus the
(collectively maintained) `_triangulation_changed` flag. -/
structure Global (dim : Nat) where
  workers : List (Worker dim)
  triChanged : Bool

/-- The global particle count: the all-reduce sum of the local
`_particles.size()` values (world.h:582-590). -/
def globalCount {dim : Nat} (g : Global dim) : Nat :=
  (g.workers.map (fun w => w.particles.length)).sum

/-- Model of `World::check_particle_count` (world.h:593-597), performed on every
rank of the group: `AssertThrow(global_particles == global_sum_particles)`;
any mismatch aborts the run. -/
def checkParticleCount {dim : Nat} (g : Global dim) :
    Except String (Global dim) :=
  if g.workers.all (fun w => ((globalCount g : ℚ) == w.globalSum)) then
    .ok g
  else
    .error "Particle count unexpectedly changed."

/-- Modelled from the spec: the velocity field provider (§6) — the
`FEFieldFunction` built from the solution vector in
`World::get_particle_velocities`, evaluated per cell and position. -/
abbrev VField (dim : Nat) := LevelInd → Pt dim → Pt dim

/-- Model of `World::get_particle_velocities` (world.h:529-580): every particle's
velocity becomes the field value at its position, evaluated on its cell
(the per-cell batching of the source is an efficiency device; the values
written back are exactly these). -/
def getParticleVelocities {dim : Nat} (vf : VField dim)
    (particles : List (LevelInd × Particle dim)) :
    List (LevelInd × Particle dim) :=
  particles.map (fun kp => (kp.1, { kp.2 with velocity := vf kp.1 kp.2.location }))

/-- The record shipped per particle: the particle payload written by
`T::write_data` (modelled from the spec §4.1: identity, position and
velocity) together with the integrator auxiliary payload appended by
`Integrator::write_data` (world.h:497-501). -/
structure WireRec (dim : Nat) where
  id : ℚ
  location : Pt dim
  velocity : Pt dim
  aux : List ℚ

/-- Sender side of `World::send_recv_particles` (world.h:456-501): drop
every non-local particle from `_particles` and serialize it (particle
payload, then integrator payload looked up by id, threading the
integrator's maps through the writes). -/
def serializeLeaving {dim : Nat} (integ : Integ dim) :
    List (Particle dim) → List (WireRec dim) × Integ dim
  | [] => ([], integ)
  | p :: rest =>
      let (aux, integ1) := integ.writeData p.id
      let (recs, integ2) := serializeLeaving integ1 rest
      (⟨p.id, p.location, p.velocity, aux⟩ :: recs, integ2)

/-- The per-worker send phase: partition `_particles` by the local flag
(world.h:456-467), keep the stays, and serialize the leavers in
iteration order. -/
def extractLeaving {dim : Nat} (w : Worker dim) :
    Worker dim × List (WireRec dim) :=
  let staying := w.particles.filter (fun kp => kp.2.isLocal)
  let leaving := (w.particles.filter (fun kp => !kp.2.isLocal)).map (fun kp => kp.2)
  let (recs, integ1) := serializeLeaving w.integ leaving
  ({ w with particles := staying, integ := integ1 }, recs)

/-- Receiver side of `World::send_recv_particles` (world.h:508-523): for
each received record, deserialize the particle (a default-constructed `T`
filled by `read_data`; its local flag starts false until `find_cell`
decides), feed the auxiliary payload to the integrator keyed by the id,
re-run `find_cell` with the unknown hint `(-1,-1)`, and insert the
particle under the found handle exactly when it is now local. -/
def processRecv {dim : Nat} (triChanged : Bool) :
    Worker dim → List (WireRec dim) → Worker dim
  | w, [] => w
  | w, r :: rest =>
      let p : Particle dim := ⟨r.id, r.location, r.velocity, false⟩
      let (integ1, _) := w.integ.readData r.id r.aux
      let res := findCell w.mesh triChanged p notFound
      let w1 :=
        if res.1.isLocal then
          { w with particles := w.particles ++ [(res.2.1, res.1)], integ := integ1 }
        else
          { w with integ := integ1 }
      processRecv triChanged w1 rest

/-- The record a received particle keeps on a worker, if any: `find_cell`
with the unknown hint decides locality and supplies the cell key
(world.h:515-522). -/
def keepRecv {dim : Nat} (msh : Mesh dim) (triChanged : Bool)
    (r : WireRec dim) : Option (LevelInd × Particle dim) :=
  let res := findCell msh triChanged ⟨r.id, r.location, r.velocity, false⟩ notFound
  if res.1.isLocal then some (res.2.1, res.1) else none

/-- The receive loop over ranks: worker `i` receives, in rank order, the
full leaving set of every other rank and none of its own
(`_num_send[_self_rank] = 0`, world.h:471-476). -/
def sendRecvGo {dim : Nat} (triChanged : Bool)
    (allRecs : List (List (WireRec dim))) :
    Nat → List (Worker dim) → List (Worker dim)
  | _, [] => []
  | i, w :: rest =>
      processRecv triChanged w (allRecs.eraseIdx i).flatten
        :: sendRecvGo triChanged allRecs (i + 1) rest

/-- Model of `World::send_recv_particles` (world.h:446-527) across the whole
group: every worker extracts and serializes its leavers, the records are
exchanged all-to-all, and every worker filters the arrivals through
`find_cell`. -/
def sendRecv {dim : Nat} (g : Global dim) : Global dim :=
  let exts := g.workers.map extractLeaving
  ⟨sendRecvGo g.triChanged (exts.map (fun e => e.2)) 0 (exts.map (fun e => e.1)),
   g.triChanged⟩

/-- One worker's relocation (`find_all_cells`) step inside the driver. -/
def relocateWorker {dim : Nat} (triChanged : Bool) (w : Worker dim) : Worker dim :=
  { w with particles := findAllCells w.mesh triChanged w.particles }

/-- One worker's velocity-sampling step inside the driver. -/
def sampleWorker {dim : Nat} (vf : VField dim) (w : Worker dim) : Worker dim :=
  { w with particles := getParticleVelocities vf w.particles }

/-- One worker's `integrate_step` call, returning its continue flag. -/
def integrateWorker {dim : Nat} (dt : ℚ) (w : Worker dim) : Worker dim × Bool :=
  let res := w.integ.intStep w.particles dt
  ({ w with integ := res.1, particles := res.2.1 }, res.2.2)

/-- The SPMD continue flag of the integration loop: every rank loops on
its own integrator's return value; the ranks advance their (identical)
sub-step counters in lockstep, so divergent flags mean the collectives
inside the loop body would be called unequally often — a deadlock,
modelled as an error. -/
def combineFlags : List Bool → Except String Bool
  | [] => .ok false
  | f :: rest => if rest.all (fun x => x == f) then .ok f else .error "desync"

/-- The integration loop of `World::advance_timestep` (world.h:367-383):
sample velocities, integrate one sub-step, relocate,
`move_particles_back_in_mesh` (a no-op in the source, world.h:389-391),
exchange, and repeat while the integrator asks to continue.  The loop is
fueled; any fuel at least the scheme's sub-step count completes. -/
def advanceLoop {dim : Nat} (vf : VField dim) (dt : ℚ) :
    Nat → Global dim → Except String (Global dim)
  | 0, _ => .error "out of fuel"
  | fuel + 1, g =>
      let sampled := g.workers.map (sampleWorker vf)
      let stepped := sampled.map (integrateWorker dt)
      let relocated := (stepped.map (fun e => e.1)).map (relocateWorker g.triChanged)
      let g1 := sendRecv ⟨relocated, g.triChanged⟩
      match combineFlags (stepped.map (fun e => e.2)) with
      | .error e => .error e
      | .ok cont => if cont then advanceLoop vf dt fuel g1 else .ok g1

/-- The body of `World::advance_timestep` before the final invariant
check (world.h:354-383): relocate, exchange if the triangulation changed,
fix up out-of-mesh particles (no-op), then run the integration loop. -/
def advanceTimestepBody {dim : Nat} (vf : VField dim) (dt : ℚ) (fuel : Nat)
    (g : Global dim) : Except String (Global dim) :=
  let g1 : Global dim := ⟨g.workers.map (relocateWorker g.triChanged), g.triChanged⟩
  let g2 := if g.triChanged then sendRecv g1 else g1
  advanceLoop vf dt fuel g2

/-- Model of `World::advance_timestep` (world.h:354-387): the body followed, as
its final action, by `check_particle_count`. -/
def advanceTimestep {dim : Nat} (vf : VField dim) (dt : ℚ) (fuel : Nat)
    (g : Global dim) : Except String (Global dim) :=
  advanceTimestepBody vf dt fuel g >>= checkParticleCount

/-- A sequence of `advance_timestep` calls, each with its own solution
field and timestep length. -/
def runAdvances {dim : Nat} (fuel : Nat) :
    List (VField dim × ℚ) → Global dim → Except String (Global dim)
  | [], g => .ok g
  | (vf, dt) :: rest, g => advanceTimestep vf dt fuel g >>= runAdvances fuel rest

/-! ## Particle generation (`world.h`)

`generate_particles_in_subdomain` places each particle by a roulette-wheel
draw over the cumulative volumes of the locally owned cells followed by
rejection sampling inside the chosen cell's bounding box, both driven by
`drand48()`.  The embedding abstracts that randomness as a placement
oracle giving, for each particle index, the selected cell and the
accepted point; the identifier bookkeeping — the part claims speak
about — is deterministic. -/

/-- The local volume summed in `World::global_add_particles`
(world.h:307-313): the measures of the locally owned active cells. -/
def localVolume {dim : Nat} (m : Mesh dim) : ℚ :=
  ((m.activeCells.filter (fun c => m.locallyOwned c)).map m.measure).sum

/-- Model of `World::generate_particles_in_subdomain` (world.h:88-165), with the
roulette/rejection randomness abstracted into `place`: particle `i` of
this worker is created by `T new_particle(pt, cur_id)` with
`cur_id = start_id + i` (velocity default-constructed to zero) and
inserted under the selected locally owned cell. -/
def genSubdomain {dim : Nat} (place : Nat → LevelInd × Pt dim)
    (numParticles startId : Nat) : List (LevelInd × Particle dim) :=
  (List.range numParticles).map (fun i =>
    ((place i).1, ⟨((startId + i : Nat) : ℚ), (place i).2, 0, true⟩))

/-- The per-rank id-range computation of `World::global_add_particles`
(world.h:318-330), unrolled over the group in rank order.  `accFrac` is
the inclusive `MPI_Scan` prefix of the ranks already processed:
`end_fraction = accFrac + subdomain_fraction`,
`start_fraction = end_fraction - subdomain_fraction`, and the id range is
`[floor(start_fraction*total), floor(end_fraction*total))` (the
`static_cast<unsigned int>` of a nonnegative floor is `Int.toNat`). -/
def genWorkers {dim : Nat} (places : Nat → Nat → LevelInd × Pt dim)
    (total : Nat) (totalVolume : ℚ) :
    Nat → ℚ → List (Worker dim) → List (Worker dim)
  | _, _, [] => []
  | rank, accFrac, w :: rest =>
      let subdomainFraction := localVolume w.mesh / totalVolume
      let endFraction := accFrac + subdomainFraction
      let startFraction := endFraction - subdomainFraction
      let startId := (⌊startFraction * (total : ℚ)⌋).toNat
      let endId := (⌊endFraction * (total : ℚ)⌋).toNat
      let news := genSubdomain (places rank) (endId - startId) startId
      { w with particles := w.particles ++ news, globalSum := (total : ℚ) }
        :: genWorkers places total totalVolume (rank + 1) endFraction rest

/-- Model of `World::global_add_particles` (world.h:301-331) across the group
(the spec's `generate_global_particles`): record the global target count,
check the zero-volume assertion on every active cell, all-reduce the
local volumes, scan the volume fractions, and generate each rank's id
range. -/
def globalAddParticles {dim : Nat} (places : Nat → Nat → LevelInd × Pt dim)
    (total : Nat) (g : Global dim) : Except String (Global dim) :=
  if g.workers.any (fun w => w.mesh.activeCells.any (fun c => w.mesh.measure c == 0)) then
    .error "Found cell with zero volume."
  else
    let totalVolume := (g.workers.map (fun w => localVolume w.mesh)).sum
    .ok ⟨genWorkers places total totalVolume 0 0 g.workers, g.triChanged⟩

/-- The ids of all particles across the group, in rank and container
order. -/
def idsOf {dim : Nat} (ws : List (Worker dim)) : List ℚ :=
  (ws.map (fun w => w.particles.map (fun kp => kp.2.id))).flatten

/-- The inclusive scan of the subdomain volume fractions, as accumulated
by `genWorkers`: the `MPI_Scan` value after processing the given ranks. -/
def accEnd {dim : Nat} (tv : ℚ) : ℚ → List (Worker dim) → ℚ
  | a, [] => a
  | a, w :: rest => accEnd tv (a + localVolume w.mesh / tv) rest

/-! ## Shared helper lemmas -/

theorem PMap.find?_set {dim : Nat} (m : PMap dim) (k : ℚ) (v : Pt dim) :
    (m.set k v).find? k = some v := by
  induction m with
  | nil => simp [PMap.set, PMap.find?]
  | cons hd tl ih =>
      by_cases h : hd.1 = k
      · simp [PMap.set, PMap.find?, h]
      · simp [PMap.set, PMap.find?, h, ih]

theorem eulerGo_eq_map {dim : Nat} (dt : ℚ)
    (ps : List (LevelInd × Particle dim)) :
    eulerGo dt ps = ps.map (fun kp =>
      (kp.1, { kp.2 with location := kp.2.location + dt • kp.2.velocity })) := by
  induction ps with
  | nil => rfl
  | cons hd tl ih => cases hd; simp [eulerGo, ih]

theorem rk2Go_out_of_range {dim : Nat} (dt : ℚ) (step : Nat) (h : 2 ≤ step)
    (m : PMap dim) (ps : List (LevelInd × Particle dim)) :
    rk2Go dt step m ps = (m, ps) := by
  induction ps with
  | nil => rfl
  | cons hd tl ih =>
      cases hd
      have h0 : ¬ step = 0 := by omega
      have h1 : ¬ step = 1 := by omega
      simp [rk2Go, h0, h1, ih]

theorem rk4Go_out_of_range {dim : Nat} (dt : ℚ) (step : Nat) (h : 4 ≤ step)
    (ms : PMap dim × PMap dim × PMap dim × PMap dim)
    (ps : List (LevelInd × Particle dim)) :
    rk4Go dt step ms ps = (ms, ps) := by
  induction ps with
  | nil =>
      obtain ⟨a, b, c, d⟩ := ms
      rfl
  | cons hd tl ih =>
      obtain ⟨a, b, c, d⟩ := ms
      cases hd
      have h0 : ¬ step = 0 := by omega
      have h1 : ¬ step = 1 := by omega
      have h2 : ¬ step = 2 := by omega
      have h3 : ¬ step = 3 := by omega
      simp only [rk4Go, h0, h1, h2, h3, if_false]
      rw [ih]

/-! ## Claim theorems: integrators -/

/-- C5: a single Euler `integrate_step(dt)` call updates every particle
in the population from position `p0` with sampled velocity `v` to
`p0 + dt*v`, and returns `false`, for any population and any `dt`. -/
theorem euler_integrate_step_spec {dim : Nat}
    (particles : List (LevelInd × Particle dim)) (dt : ℚ) :
    eulerStep particles dt =
      (particles.map (fun kp =>
        (kp.1, { kp.2 with location := kp.2.location + dt • kp.2.velocity })),
       false) := by
  unfold eulerStep
  rw [eulerGo_eq_map]

/-- C4: for the RK2 integrator starting at sub-step 0 on a particle at
`p0` with sampled velocity `v0`, the first `integrate_step(dt)` call
returns `true` and sets the position to `p0 + 0.5*dt*v0`; after
re-sampling the velocity to `v1` at the new position, the second call
sets the position to `p0 + dt*v1`, returns `false`, and leaves the
auxiliary `loc0` map empty. -/
theorem rk2_two_call_contract {dim : Nat} (c : LevelInd) (idn : ℚ)
    (p0 v0 v1 : Pt dim) (dt : ℚ) :
    rk2Step rk2Init [(c, ⟨idn, p0, v0, true⟩)] dt =
      (⟨1, [(idn, p0)]⟩,
       [(c, ⟨idn, p0 + ((1/2 : ℚ) * dt) • v0, v0, true⟩)], true)
    ∧ rk2Step (rk2Step rk2Init [(c, ⟨idn, p0, v0, true⟩)] dt).1
        [(c, ⟨idn, p0 + ((1/2 : ℚ) * dt) • v0, v1, true⟩)] dt =
      (⟨0, []⟩, [(c, ⟨idn, p0 + dt • v1, v1, true⟩)], false) := by
  constructor
  · simp [rk2Step, rk2Init, rk2Go, PMap.set]
  · simp [rk2Step, rk2Init, rk2Go, PMap.set, PMap.get, PMap.find?]

/-- C3: for the RK4 integrator starting at sub-step 0 on a particle at
position `p0`, with velocities `v0..v3` sampled before each of the four
`integrate_step(dt)` calls, the intermediate positions are
`p0 + 0.5*k1`, `p0 + 0.5*k2`, `p0 + k3` and the final position is
`p0 + (k1 + 2*k2 + 2*k3 + k4)/6` with `k_i = dt*v_{i-1}`; calls 1-3
return `true`, call 4 returns `false`, and all four auxiliary maps are
empty after call 4. -/
theorem rk4_four_call_contract {dim : Nat} (c : LevelInd) (idn : ℚ)
    (p0 v0 v1 v2 v3 : Pt dim) (dt : ℚ) :
    rk4Step rk4Init [(c, ⟨idn, p0, v0, true⟩)] dt =
      (⟨1, [(idn, p0)], [(idn, dt • v0)], [], []⟩,
       [(c, ⟨idn, p0 + (1/2 : ℚ) • (dt • v0), v0, true⟩)], true)
    ∧ rk4Step (rk4Step rk4Init [(c, ⟨idn, p0, v0, true⟩)] dt).1
        [(c, ⟨idn, p0 + (1/2 : ℚ) • (dt • v0), v1, true⟩)] dt =
      (⟨2, [(idn, p0)], [(idn, dt • v0)], [(idn, dt • v1)], []⟩,
       [(c, ⟨idn, p0 + (1/2 : ℚ) • (dt • v1), v1, true⟩)], true)
    ∧ rk4Step (rk4Step (rk4Step rk4Init [(c, ⟨idn, p0, v0, true⟩)] dt).1
        [(c, ⟨idn, p0 + (1/2 : ℚ) • (dt • v0), v1, true⟩)] dt).1
        [(c, ⟨idn, p0 + (1/2 : ℚ) • (dt • v1), v2, true⟩)] dt =
      (⟨3, [(idn, p0)], [(idn, dt • v0)], [(idn, dt • v1)], [(idn, dt • v2)]⟩,
       [(c, ⟨idn, p0 + dt • v2, v2, true⟩)], true)
    ∧ rk4Step (rk4Step (rk4Step (rk4Step rk4Init [(c, ⟨idn, p0, v0, true⟩)] dt).1
        [(c, ⟨idn, p0 + (1/2 : ℚ) • (dt • v0), v1, true⟩)] dt).1
        [(c, ⟨idn, p0 + (1/2 : ℚ) • (dt • v1), v2, true⟩)] dt).1
        [(c, ⟨idn, p0 + dt • v2, v3, true⟩)] dt =
      (⟨0, [], [], [], []⟩,
       [(c, ⟨idn,
          p0 + sdiv (dt • v0 + (2 : ℚ) • (dt • v1) + (2 : ℚ) • (dt • v2) + dt • v3) 6,
          v3, true⟩)], false) := by
  refine ⟨?_, ?_, ?_, ?_⟩ <;>
    simp [rk4Step, rk4Init, rk4Go, PMap.set, PMap.get, PMap.find?]

/-- C7 counterexample: invoking `integrate_step` with the sub-step
counter outside the scheme's valid range is NOT a fatal abort: the
`else` branch of the source is only the comment `// Error!`, so at a
concrete out-of-range state (RK2 at `_step = 2`, RK4 at `_step = 5`)
the call returns normally, leaves the particle's position untouched,
and even asks for further sub-steps — a silent no-op, not an abort. -/
theorem integrator_out_of_range_cex :
    rk2Step (⟨2, []⟩ : RK2State 1) [((0, 0), ⟨0, fun _ => 1, fun _ => 2, true⟩)] 1 =
      (⟨1, []⟩, [((0, 0), ⟨0, fun _ => 1, fun _ => 2, true⟩)], true)
    ∧ rk4Step (⟨5, [], [], [], []⟩ : RK4State 1)
        [((0, 0), ⟨0, fun _ => 1, fun _ => 2, true⟩)] 1 =
      (⟨2, [], [], [], []⟩, [((0, 0), ⟨0, fun _ => 1, fun _ => 2, true⟩)], true) := by
  constructor <;> rfl

/-- C7 (amended): an out-of-range sub-step counter cannot cause an abort:
the source's out-of-range branch silently skips the position update for
every particle and advances the counter modulo the scheme's order; and in
fact the counter can never leave the valid range, since every call ends
by reducing it modulo 2 (RK2) resp. 4 (RK4). -/
theorem integrator_out_of_range_silent {dim : Nat}
    (s2 : RK2State dim) (s4 : RK4State dim)
    (ps : List (LevelInd × Particle dim)) (dt : ℚ)
    (h2 : 2 ≤ s2.step) (h4 : 4 ≤ s4.step) :
    (rk2Step s2 ps dt).2.1 = ps
    ∧ (rk4Step s4 ps dt).2.1 = ps
    ∧ (∀ t : RK2State dim, (rk2Step t ps dt).1.step < 2)
    ∧ (∀ t : RK4State dim, (rk4Step t ps dt).1.step < 4) := by
  refine ⟨?_, ?_, ?_, ?_⟩
  · simp [rk2Step, rk2Go_out_of_range dt s2.step h2]
  · by_cases h : (s4.step + 1) % 4 = 0 <;>
      simp [rk4Step, rk4Go_out_of_range dt s4.step h4, h]
  · intro t
    simp only [rk2Step]
    exact Nat.mod_lt _ (by norm_num)
  · intro t
    have hlt : (t.step + 1) % 4 < 4 := Nat.mod_lt _ (by norm_num)
    by_cases h : (t.step + 1) % 4 = 0
    · simp only [rk4Step, h]
      simpa [h] using hlt
    · simp only [rk4Step, h]
      simpa [h] using hlt

/-- C7 witness. -/
theorem integrator_out_of_range_silent_witness :
    (rk2Step (⟨2, []⟩ : RK2State 1) [] 1).2.1 = []
    ∧ (rk4Step (⟨4, [], [], [], []⟩ : RK4State 1) [] 1).2.1 = []
    ∧ (∀ t : RK2State 1, (rk2Step t [] 1).1.step < 2)
    ∧ (∀ t : RK4State 1, (rk4Step t [] 1).1.step < 4) :=
  integrator_out_of_range_silent ⟨2, []⟩ ⟨4, [], [], [], []⟩ [] 1
    (by norm_num) (by norm_num)

/-! ## Wire-format helper lemmas -/

theorem PMap.set_of_absent {dim : Nat} (m : PMap dim) (k : ℚ) (v : Pt dim)
    (h : m.find? k = none) : m.set k v = m ++ [(k, v)] := by
  induction m with
  | nil => simp [PMap.set]
  | cons hd tl ih =>
      by_cases hk : hd.1 = k
      · simp [PMap.find?, hk] at h
      · simp only [PMap.find?, hk, if_false] at h
        simp [PMap.set, hk, ih h]

theorem PMap.get_of_absent {dim : Nat} (m : PMap dim) (k : ℚ)
    (h : m.find? k = none) : m.get k = (0, m.set k 0) := by
  simp [PMap.get, h]

theorem PMap.get_of_present {dim : Nat} (m : PMap dim) (k : ℚ) (v : Pt dim)
    (h : m.find? k = some v) : m.get k = (v, m) := by
  simp [PMap.get, h]

theorem writeVec_of_present {dim : Nat} (m : PMap dim) (k : ℚ) (v : Pt dim)
    (h : m.find? k = some v) :
    writeVec m k = ((List.finRange dim).map v, m) := by
  simp [writeVec, PMap.get_of_present m k v h]

theorem readVec_append {dim : Nat} (v : Pt dim) (rest : List ℚ) :
    readVec dim ((List.finRange dim).map v ++ rest) = (v, rest) := by
  have hlen : ((List.finRange dim).map v).length = dim := by simp
  unfold readVec
  refine Prod.ext ?_ ?_
  · funext i
    have hi : (i : Nat) < ((List.finRange dim).map v).length := by
      rw [hlen]; exact i.isLt
    simp only [List.getD_eq_getElem?_getD, List.getElem?_append_left hi]
    rw [List.getElem?_eq_getElem hi]
    simp
  · show ((List.finRange dim).map v ++ rest).drop dim = rest
    have hd := List.drop_left ((List.finRange dim).map v) rest
    rwa [hlen] at hd

/-! ## Claim theorems: wire formats and auxiliary state -/

/-- C8: for any particle identifier whose `loc0, k1, k2, k3` vectors are
present in the RK4 integrator's auxiliary maps, `write_data` for that
identifier followed by `read_data` from the produced buffer (into a
possibly different integrator instance's maps, keyed by the same
identifier) reproduces identical `loc0, k1, k2, k3` vectors, and both
calls advance the buffer pointer by exactly `data_len` bytes
(`4*dim*sizeof(double)`). -/
theorem rk4_wire_round_trip {dim : Nat} (s t : RK4State dim) (idn : ℚ)
    (a0 a1 a2 a3 : Pt dim) (rest : List ℚ)
    (h0 : s.loc0.find? idn = some a0) (h1 : s.k1.find? idn = some a1)
    (h2 : s.k2.find? idn = some a2) (h3 : s.k3.find? idn = some a3) :
    (rk4WriteData s idn).1.length * sizeofDouble = rk4DataLen dim
    ∧ (rk4ReadData t idn ((rk4WriteData s idn).1 ++ rest)).2 = rest
    ∧ (rk4ReadData t idn ((rk4WriteData s idn).1 ++ rest)).1.loc0.find? idn = some a0
    ∧ (rk4ReadData t idn ((rk4WriteData s idn).1 ++ rest)).1.k1.find? idn = some a1
    ∧ (rk4ReadData t idn ((rk4WriteData s idn).1 ++ rest)).1.k2.find? idn = some a2
    ∧ (rk4ReadData t idn ((rk4WriteData s idn).1 ++ rest)).1.k3.find? idn = some a3 := by
  have hw : rk4WriteData s idn =
      ((List.finRange dim).map a0 ++ ((List.finRange dim).map a1 ++
        ((List.finRange dim).map a2 ++ (List.finRange dim).map a3)),
       s) := by
    simp [rk4WriteData, writeVec_of_present _ _ _ h0, writeVec_of_present _ _ _ h1,
      writeVec_of_present _ _ _ h2, writeVec_of_present _ _ _ h3]
  have hr : rk4ReadData t idn ((rk4WriteData s idn).1 ++ rest) =
      ({ t with loc0 := t.loc0.set idn a0, k1 := t.k1.set idn a1,
                k2 := t.k2.set idn a2, k3 := t.k3.set idn a3 }, rest) := by
    rw [hw]
    simp only [rk4ReadData, List.append_assoc, readVec_append]
  refine ⟨?_, ?_, ?_, ?_, ?_, ?_⟩
  · rw [hw]
    simp [rk4DataLen, sizeofDouble]
    ring
  · rw [hr]
  · rw [hr]; exact PMap.find?_set _ _ _
  · rw [hr]; exact PMap.find?_set _ _ _
  · rw [hr]; exact PMap.find?_set _ _ _
  · rw [hr]; exact PMap.find?_set _ _ _

/-- C8 witness. -/
theorem rk4_wire_round_trip_witness :
    (rk4WriteData
        (⟨0, [(5, fun _ => 1)], [(5, fun _ => 2)], [(5, fun _ => 3)], [(5, fun _ => 4)]⟩
          : RK4State 1)
        5).1.length * sizeofDouble = rk4DataLen 1
    ∧ (rk4ReadData (rk4Init : RK4State 1) 5
        ((rk4WriteData
          (⟨0, [(5, fun _ => 1)], [(5, fun _ => 2)], [(5, fun _ => 3)], [(5, fun _ => 4)]⟩
            : RK4State 1)
          5).1 ++ [9])).2 = [9]
    ∧ (rk4ReadData (rk4Init : RK4State 1) 5
        ((rk4WriteData
          (⟨0, [(5, fun _ => 1)], [(5, fun _ => 2)], [(5, fun _ => 3)], [(5, fun _ => 4)]⟩
            : RK4State 1)
          5).1 ++ [9])).1.loc0.find? 5 = some (fun _ => (1 : ℚ))
    ∧ (rk4ReadData (rk4Init : RK4State 1) 5
        ((rk4WriteData
          (⟨0, [(5, fun _ => 1)], [(5, fun _ => 2)], [(5, fun _ => 3)], [(5, fun _ => 4)]⟩
            : RK4State 1)
          5).1 ++ [9])).1.k1.find? 5 = some (fun _ => (2 : ℚ))
    ∧ (rk4ReadData (rk4Init : RK4State 1) 5
        ((rk4WriteData
          (⟨0, [(5, fun _ => 1)], [(5, fun _ => 2)], [(5, fun _ => 3)], [(5, fun _ => 4)]⟩
            : RK4State 1)
          5).1 ++ [9])).1.k2.find? 5 = some (fun _ => (3 : ℚ))
    ∧ (rk4ReadData (rk4Init : RK4State 1) 5
        ((rk4WriteData
          (⟨0, [(5, fun _ => 1)], [(5, fun _ => 2)], [(5, fun _ => 3)], [(5, fun _ => 4)]⟩
            : RK4State 1)
          5).1 ++ [9])).1.k3.find? 5 = some (fun _ => (4 : ℚ)) :=
  rk4_wire_round_trip
    ⟨0, [(5, fun _ => 1)], [(5, fun _ => 2)], [(5, fun _ => 3)], [(5, fun _ => 4)]⟩
    rk4Init 5 (fun _ => 1) (fun _ => 2) (fun _ => 3) (fun _ => 4) [9]
    rfl rfl rfl rfl

/-- C10: consulting the RK2/RK4 auxiliary maps for an identifier that was
never recorded raises no error: the C++ `operator[]` lookup
default-constructs a zero vector (inserting it); `integrate_step` at a
sub-step later than 0 for an absent identifier therefore computes the new
position as if `loc0` (and the missing `k_i`) were the zero vector; and
`write_data` for an unknown identifier serializes all-zero vectors and
inserts that identifier into the maps as a side effect. -/
theorem aux_state_default_zero {dim : Nat} (m : PMap dim) (idn : ℚ)
    (c : LevelInd) (p0 v : Pt dim) (dt : ℚ) (s : RK4State dim)
    (hdim : 0 < dim)
    (hm : m.find? idn = none)
    (hl : s.loc0.find? idn = none) (hk1 : s.k1.find? idn = none)
    (hk2 : s.k2.find? idn = none) (hk3 : s.k3.find? idn = none) :
    (m.get idn).1 = 0
    ∧ (m.get idn).2.find? idn = some 0
    ∧ (rk2Step ⟨1, m⟩ [(c, ⟨idn, p0, v, true⟩)] dt).2.1
        = [(c, ⟨idn, (0 : Pt dim) + dt • v, v, true⟩)]
    ∧ (rk4Step ⟨3, s.loc0, s.k1, s.k2, s.k3⟩ [(c, ⟨idn, p0, v, true⟩)] dt).2.1
        = [(c, ⟨idn, sdiv (dt • v) 6, v, true⟩)]
    ∧ (rk4WriteData s idn).1 = List.replicate (4 * dim) 0
    ∧ (rk4WriteData s idn).2.loc0.find? idn = some 0
    ∧ (rk4WriteData s idn).2.k1.find? idn = some 0
    ∧ (rk4WriteData s idn).2.k2.find? idn = some 0
    ∧ (rk4WriteData s idn).2.k3.find? idn = some 0 := by
  have hzero : ((List.finRange dim).map (0 : Pt dim)) = List.replicate dim (0 : ℚ) := by
    rw [List.eq_replicate_iff]
    constructor
    · simp
    · intro b hb
      simp only [List.mem_map] at hb
      obtain ⟨i, _, hi⟩ := hb
      exact hi.symm
  refine ⟨?_, ?_, ?_, ?_, ?_, ?_, ?_, ?_, ?_⟩
  · simp [PMap.get_of_absent m idn hm]
  · simp [PMap.get_of_absent m idn hm, PMap.find?_set]
  · simp [rk2Step, rk2Go, PMap.get_of_absent m idn hm]
  · simp only [rk4Step, rk4Go, PMap.get_of_absent _ idn hl,
      PMap.get_of_absent _ idn hk1, PMap.get_of_absent _ idn hk2,
      PMap.get_of_absent _ idn hk3]
    simp [PMap.get, PMap.find?_set]
  · simp only [rk4WriteData, writeVec, PMap.get_of_absent _ idn hl,
      PMap.get_of_absent _ idn hk1, PMap.get_of_absent _ idn hk2,
      PMap.get_of_absent _ idn hk3]
    simp only [hzero, ← List.replicate_add]
    congr 1
    omega
  · simp [rk4WriteData, writeVec, PMap.get_of_absent _ idn hl, PMap.find?_set]
  · simp [rk4WriteData, writeVec, PMap.get_of_absent _ idn hk1, PMap.find?_set]
  · simp [rk4WriteData, writeVec, PMap.get_of_absent _ idn hk2, PMap.find?_set]
  · simp [rk4WriteData, writeVec, PMap.get_of_absent _ idn hk3, PMap.find?_set]

/-- C10 witness. -/
theorem aux_state_default_zero_witness :
    (PMap.get ([] : PMap 1) 7).1 = 0
    ∧ (PMap.get ([] : PMap 1) 7).2.find? 7 = some 0
    ∧ (rk2Step (⟨1, []⟩ : RK2State 1) [((0, 0), ⟨7, fun _ => 1, fun _ => 2, true⟩)] 3).2.1
        = [((0, 0), ⟨7, (0 : Pt 1) + (3 : ℚ) • (fun _ => (2 : ℚ)), fun _ => 2, true⟩)]
    ∧ (rk4Step (⟨3, [], [], [], []⟩ : RK4State 1)
        [((0, 0), ⟨7, fun _ => 1, fun _ => 2, true⟩)] 3).2.1
        = [((0, 0), ⟨7, sdiv ((3 : ℚ) • (fun _ => (2 : ℚ))) 6, fun _ => 2, true⟩)]
    ∧ (rk4WriteData (rk4Init : RK4State 1) 7).1 = List.replicate (4 * 1) 0
    ∧ (rk4WriteData (rk4Init : RK4State 1) 7).2.loc0.find? 7 = some 0
    ∧ (rk4WriteData (rk4Init : RK4State 1) 7).2.k1.find? 7 = some 0
    ∧ (rk4WriteData (rk4Init : RK4State 1) 7).2.k2.find? 7 = some 0
    ∧ (rk4WriteData (rk4Init : RK4State 1) 7).2.k3.find? 7 = some 0 :=
  aux_state_default_zero [] 7 (0, 0) (fun _ => 1) (fun _ => 2) 3
    ⟨0, [], [], [], []⟩ (by norm_num) rfl rfl rfl rfl rfl

/-! ## Claim theorems: cell location and exchange -/

/-- C6: if the mesh has not changed since the last mesh-change
notification (`_triangulation_changed` is false) and the hint cell
handle is valid, contains the particle's position, and is a leaf
(active) cell, then `find_cell` returns the hint handle itself without
performing any top-down root-cell search (the instrumentation counter of
root searches is 0), and sets the particle's is-local flag to that
cell's locally-owned status. -/
theorem find_cell_fast_path {dim : Nat} (m : Mesh dim) (p : Particle dim)
    (cur : LevelInd)
    (hvalid : m.validCell cur = true)
    (hinside : m.pointInside cur p.location = true)
    (hactive : m.active cur = true) :
    findCell m false p cur = ({ p with isLocal := m.locallyOwned cur }, cur, 0) := by
  simp [findCell, hvalid, hinside, hactive]

/-- C6 witness: a one-cell mesh whose only cell contains the particle. -/
theorem find_cell_fast_path_witness :
    findCell
      (⟨fun c => c == (0, 0), fun _ _ => true, fun _ => true, fun _ => true,
       fun _ => [], [(0, 0)], [(0, 0)], fun _ => 1, 1⟩ : Mesh 1)
      false ⟨3, fun _ => 0, fun _ => 0, false⟩ (0, 0)
    = (⟨3, fun _ => 0, fun _ => 0, true⟩, (0, 0), 0) :=
  find_cell_fast_path _ _ _ rfl rfl rfl

theorem processRecv_spec {dim : Nat} (triChanged : Bool) (w : Worker dim)
    (rs : List (WireRec dim)) :
    (processRecv triChanged w rs).mesh = w.mesh
    ∧ (processRecv triChanged w rs).globalSum = w.globalSum
    ∧ (processRecv triChanged w rs).particles
        = w.particles ++ rs.filterMap (keepRecv w.mesh triChanged) := by
  induction rs generalizing w with
  | nil => simp [processRecv]
  | cons r rest ih =>
      simp only [processRecv]
      by_cases h : (findCell w.mesh triChanged
          ⟨r.id, r.location, r.velocity, false⟩ notFound).1.isLocal
      · simp only [h, if_true]
        refine ⟨(ih _).1, (ih _).2.1, ?_⟩
        rw [(ih _).2.2]
        simp [keepRecv, h, List.filterMap_cons]
      · simp only [h, if_false]
        refine ⟨(ih _).1, (ih _).2.1, ?_⟩
        rw [(ih _).2.2]
        simp [keepRecv, h, List.filterMap_cons]

theorem sendRecvGo_getElem {dim : Nat} (triChanged : Bool)
    (allRecs : List (List (WireRec dim))) (ws : List (Worker dim)) :
    ∀ (st j : Nat),
      (sendRecvGo triChanged allRecs st ws)[j]?
        = (ws[j]?).map
            (fun w => processRecv triChanged w ((allRecs.eraseIdx (st + j)).flatten)) := by
  induction ws with
  | nil => intro st j; simp [sendRecvGo]
  | cons w rest ih =>
      intro st j
      cases j with
      | zero => simp [sendRecvGo]
      | succ j =>
          simp only [sendRecvGo, List.getElem?_cons_succ]
          rw [ih (st + 1) j]
          have harith : st + 1 + j = st + (j + 1) := by omega
          rw [harith]

/-- C2: `send_recv_particles` removes from the local population exactly
those particles whose is-local flag is false (is-local particles stay
untouched), and a record received from the other workers is inserted
into the local population, keyed by the cell handle that `find_cell`
with the unknown hint returns, if and only if that `find_cell` call
marks the particle local; received particles not local on this worker
are discarded. -/
theorem send_recv_partition_spec {dim : Nat} (g : Global dim) (i : Nat)
    (w : Worker dim) (hw : g.workers[i]? = some w) :
    ∃ w', (sendRecv g).workers[i]? = some w'
      ∧ w'.particles
          = w.particles.filter (fun kp => kp.2.isLocal)
            ++ ((((g.workers.map extractLeaving).map (fun e => e.2)).eraseIdx i).flatten).filterMap
                 (keepRecv w.mesh g.triChanged) := by
  refine ⟨processRecv g.triChanged (extractLeaving w).1
    ((((g.workers.map extractLeaving).map (fun e => e.2)).eraseIdx i).flatten), ?_, ?_⟩
  · show (sendRecvGo g.triChanged ((g.workers.map extractLeaving).map (fun e => e.2)) 0
      ((g.workers.map extractLeaving).map (fun e => e.1)))[i]? = _
    rw [sendRecvGo_getElem]
    simp [hw, Nat.zero_add]
  · have hspec := processRecv_spec g.triChanged (extractLeaving w).1
      ((((g.workers.map extractLeaving).map (fun e => e.2)).eraseIdx i).flatten)
    rw [hspec.2.2]
    rfl

/-- C2 witness: two workers; worker 0 holds one non-local particle which
worker 1's mesh claims, worker 1 holds nothing. -/
theorem send_recv_partition_spec_witness :
    ∃ w', (sendRecv
        (⟨[⟨⟨fun _ => false, fun _ _ => false, fun _ => false, fun _ => false,
             fun _ => [], [], [], fun _ => 1, 1⟩,
           [((0, 0), ⟨4, fun _ => 2, fun _ => 3, false⟩)], .euler, 1⟩,
          ⟨⟨fun c => c == (0, 1), fun _ _ => true, fun _ => true, fun _ => true,
             fun _ => [], [(0, 1)], [(0, 1)], fun _ => 1, 1⟩,
           [], .euler, 1⟩], false⟩ : Global 1)).workers[1]? = some w'
      ∧ w'.particles
          = ([] : List (LevelInd × Particle 1)).filter (fun kp => kp.2.isLocal)
            ++ (((([⟨⟨fun _ => false, fun _ _ => false, fun _ => false, fun _ => false,
                      fun _ => [], [], [], fun _ => 1, 1⟩,
                    [((0, 0), ⟨4, fun _ => 2, fun _ => 3, false⟩)], .euler, 1⟩,
                   ⟨⟨fun c => c == (0, 1), fun _ _ => true, fun _ => true, fun _ => true,
                      fun _ => [], [(0, 1)], [(0, 1)], fun _ => 1, 1⟩,
                    [], .euler, 1⟩] : List (Worker 1)).map extractLeaving).map
                    (fun e => e.2)).eraseIdx 1).flatten.filterMap
                 (keepRecv
                   ⟨fun c => c == (0, 1), fun _ _ => true, fun _ => true, fun _ => true,
                    fun _ => [], [(0, 1)], [(0, 1)], fun _ => 1, 1⟩ false) :=
  send_recv_partition_spec
    ⟨[⟨⟨fun _ => false, fun _ _ => false, fun _ => false, fun _ => false,
         fun _ => [], [], [], fun _ => 1, 1⟩,
       [((0, 0), ⟨4, fun _ => 2, fun _ => 3, false⟩)], .euler, 1⟩,
      ⟨⟨fun c => c == (0, 1), fun _ _ => true, fun _ => true, fun _ => true,
         fun _ => [], [(0, 1)], [(0, 1)], fun _ => 1, 1⟩,
       [], .euler, 1⟩], false⟩
    1
    ⟨⟨fun c => c == (0, 1), fun _ _ => true, fun _ => true, fun _ => true,
       fun _ => [], [(0, 1)], [(0, 1)], fun _ => 1, 1⟩,
     [], .euler, 1⟩
    rfl

/-! ## Generation helper lemmas -/

theorem genSubdomain_ids {dim : Nat} (place : Nat → LevelInd × Pt dim)
    (n start : Nat) :
    (genSubdomain place n start).map (fun kp => kp.2.id)
      = (List.range' start n).map (fun (k : Nat) => (k : ℚ)) := by
  simp only [genSubdomain, List.map_map, List.range'_eq_map_range]
  rfl

theorem accEnd_le {dim : Nat} (tv : ℚ) (htv : 0 < tv) :
    ∀ (ws : List (Worker dim)) (a : ℚ),
      (∀ w ∈ ws, 0 ≤ localVolume w.mesh) → a ≤ accEnd tv a ws := by
  intro ws
  induction ws with
  | nil => intro a _; exact le_refl a
  | cons w rest ih =>
      intro a h
      have h1 : a ≤ a + localVolume w.mesh / tv :=
        le_add_of_nonneg_right (div_nonneg (h w (by simp)) htv.le)
      exact le_trans h1 (ih _ (fun x hx => h x (by simp [hx])))

theorem accEnd_eq {dim : Nat} (tv : ℚ) :
    ∀ (ws : List (Worker dim)) (a : ℚ),
      accEnd tv a ws = a + ((ws.map (fun w => localVolume w.mesh)).sum) / tv := by
  intro ws
  induction ws with
  | nil => intro a; simp [accEnd]
  | cons w rest ih =>
      intro a
      simp only [accEnd, ih, List.map_cons, List.sum_cons]
      rw [add_div]
      ring

theorem genWorkers_globalSum {dim : Nat} (places : Nat → Nat → LevelInd × Pt dim)
    (total : Nat) (tv : ℚ) :
    ∀ (ws : List (Worker dim)) (rank : Nat) (acc : ℚ),
      ∀ w' ∈ genWorkers places total tv rank acc ws, w'.globalSum = (total : ℚ) := by
  intro ws
  induction ws with
  | nil => intro rank acc w' h; simp [genWorkers] at h
  | cons w rest ih =>
      intro rank acc w' h
      simp only [genWorkers, List.mem_cons] at h
      rcases h with h | h
      · rw [h]
      · exact ih _ _ w' h

theorem idsOf_cons {dim : Nat} (w : Worker dim) (ws : List (Worker dim)) :
    idsOf (w :: ws) = w.particles.map (fun kp => kp.2.id) ++ idsOf ws := by
  simp [idsOf]

theorem genWorkers_idsOf {dim : Nat} (places : Nat → Nat → LevelInd × Pt dim)
    (total : Nat) (tv : ℚ) (htv : 0 < tv) :
    ∀ (ws : List (Worker dim)) (rank : Nat) (acc : ℚ),
      (∀ w ∈ ws, w.particles = []) →
      (∀ w ∈ ws, 0 ≤ localVolume w.mesh) →
      idsOf (genWorkers places total tv rank acc ws)
        = (List.range' ((⌊acc * (total : ℚ)⌋).toNat)
            ((⌊accEnd tv acc ws * (total : ℚ)⌋).toNat
              - (⌊acc * (total : ℚ)⌋).toNat)).map (fun (k : Nat) => (k : ℚ)) := by
  intro ws
  induction ws with
  | nil =>
      intro rank acc _ _
      simp [genWorkers, idsOf, accEnd]
  | cons w rest ih =>
      intro rank acc hemp hvol
      have hlv : 0 ≤ localVolume w.mesh / tv :=
        div_nonneg (hvol w (by simp)) htv.le
      have hse : acc ≤ acc + localVolume w.mesh / tv := le_add_of_nonneg_right hlv
      have hee : acc + localVolume w.mesh / tv
          ≤ accEnd tv (acc + localVolume w.mesh / tv) rest :=
        accEnd_le tv htv rest _ (fun x hx => hvol x (by simp [hx]))
      have hN : (0 : ℚ) ≤ (total : ℚ) := Nat.cast_nonneg total
      have hfl1 : (⌊acc * (total : ℚ)⌋).toNat
          ≤ (⌊(acc + localVolume w.mesh / tv) * (total : ℚ)⌋).toNat :=
        Int.toNat_le_toNat (Int.floor_mono (mul_le_mul_of_nonneg_right hse hN))
      have hfl2 : (⌊(acc + localVolume w.mesh / tv) * (total : ℚ)⌋).toNat
          ≤ (⌊accEnd tv (acc + localVolume w.mesh / tv) rest * (total : ℚ)⌋).toNat :=
        Int.toNat_le_toNat (Int.floor_mono (mul_le_mul_of_nonneg_right hee hN))
      have hcons : idsOf (genWorkers places total tv rank acc (w :: rest))
          = (w.particles ++ genSubdomain (places rank)
              ((⌊(acc + localVolume w.mesh / tv) * (total : ℚ)⌋).toNat
                - (⌊(acc + localVolume w.mesh / tv - localVolume w.mesh / tv)
                    * (total : ℚ)⌋).toNat)
              ((⌊(acc + localVolume w.mesh / tv - localVolume w.mesh / tv)
                  * (total : ℚ)⌋).toNat)).map (fun kp => kp.2.id)
            ++ idsOf (genWorkers places total tv (rank + 1)
                 (acc + localVolume w.mesh / tv) rest) := rfl
      have hacc2 : accEnd tv acc (w :: rest)
          = accEnd tv (acc + localVolume w.mesh / tv) rest := rfl
      rw [hcons, hacc2, add_sub_cancel_right, hemp w (by simp), List.nil_append,
        genSubdomain_ids,
        ih (rank + 1) (acc + localVolume w.mesh / tv)
          (fun x hx => hemp x (by simp [hx])) (fun x hx => hvol x (by simp [hx]))]
      rw [← List.map_append]
      congr 1
      have happ := List.range'_append_1 ((⌊acc * (total : ℚ)⌋).toNat)
        ((⌊(acc + localVolume w.mesh / tv) * (total : ℚ)⌋).toNat
          - (⌊acc * (total : ℚ)⌋).toNat)
        ((⌊accEnd tv (acc + localVolume w.mesh / tv) rest * (total : ℚ)⌋).toNat
          - (⌊(acc + localVolume w.mesh / tv) * (total : ℚ)⌋).toNat)
      rw [Nat.add_sub_cancel' hfl1] at happ
      rw [happ]
      congr 1
      omega

/-- C9: `generate_global_particles(total_count)` (the source's
`global_add_particles`) assigns every created particle a globally unique
identifier: with each worker numbering consecutively from
`floor(start_fraction*total)` up to `floor(end_fraction*total)`, the
fractions coming from the prefix sum of the volume fractions over the
group, the identifier ranges tile `[0, total_count)` with no gaps and no
duplicates, so exactly `total_count` particles are created globally
(the concatenated id list in rank order is exactly `[0, ..., total-1]`). -/
theorem generate_ids_partition {dim : Nat} (g : Global dim)
    (places : Nat → Nat → LevelInd × Pt dim) (total : Nat)
    (hpos : ∀ w ∈ g.workers, ∀ c ∈ w.mesh.activeCells, 0 < w.mesh.measure c)
    (hempty : ∀ w ∈ g.workers, w.particles = [])
    (htv : 0 < (g.workers.map (fun w => localVolume w.mesh)).sum) :
    ∃ g', globalAddParticles places total g = .ok g'
      ∧ idsOf g'.workers = (List.range total).map (fun (k : Nat) => (k : ℚ))
      ∧ ∀ w ∈ g'.workers, w.globalSum = (total : ℚ) := by
  have hcond : g.workers.any
      (fun w => w.mesh.activeCells.any (fun c => w.mesh.measure c == 0)) = false := by
    simp only [List.any_eq_false, List.any_eq_true, beq_iff_eq, not_exists, not_and]
    intro w hw c hc
    exact (hpos w hw c hc).ne'
  have hvols : ∀ w ∈ g.workers, 0 ≤ localVolume w.mesh := by
    intro w hw
    apply List.sum_nonneg
    intro x hx
    simp only [List.mem_map] at hx
    obtain ⟨c, hc, hxc⟩ := hx
    rw [← hxc]
    exact (hpos w hw c (List.mem_of_mem_filter hc)).le
  refine ⟨⟨genWorkers places total
    ((g.workers.map (fun w => localVolume w.mesh)).sum) 0 0 g.workers,
    g.triChanged⟩, ?_, ?_, ?_⟩
  · unfold globalAddParticles
    rw [hcond]
    rfl
  · show idsOf (genWorkers places total
      ((g.workers.map (fun w => localVolume w.mesh)).sum) 0 0 g.workers) = _
    rw [genWorkers_idsOf places total _ htv g.workers 0 0 hempty hvols]
    have hone : accEnd ((g.workers.map (fun w => localVolume w.mesh)).sum)
        0 g.workers = 1 := by
      rw [accEnd_eq, zero_add, div_self (ne_of_gt htv)]
    rw [hone]
    simp [Int.floor_natCast, List.range_eq_range']
  · intro w' hw'
    exact genWorkers_globalSum places total _ g.workers 0 0 w' hw'

/-- C9 witness: two workers with unit-volume single-cell subdomains and
`total = 3`: the id ranges are `[0,1)` and `[1,3)`, tiling `[0,3)`. -/
theorem generate_ids_partition_witness :
    ∃ g', globalAddParticles (fun _ _ => ((0, 0), fun _ => 0)) 3
        (⟨[⟨⟨fun _ => true, fun _ _ => true, fun _ => true, fun _ => true,
             fun _ => [], [(0, 0)], [(0, 0)], fun _ => 1, 1⟩, [], .euler, 0⟩,
          ⟨⟨fun _ => true, fun _ _ => true, fun _ => true, fun _ => true,
             fun _ => [], [(0, 1)], [(0, 1)], fun _ => 1, 1⟩, [], .euler, 0⟩],
         true⟩ : Global 1) = .ok g'
      ∧ idsOf g'.workers = (List.range 3).map (fun (k : Nat) => (k : ℚ))
      ∧ ∀ w ∈ g'.workers, w.globalSum = ((3 : Nat) : ℚ) :=
  generate_ids_partition
    ⟨[⟨⟨fun _ => true, fun _ _ => true, fun _ => true, fun _ => true,
         fun _ => [], [(0, 0)], [(0, 0)], fun _ => 1, 1⟩, [], .euler, 0⟩,
      ⟨⟨fun _ => true, fun _ _ => true, fun _ => true, fun _ => true,
         fun _ => [], [(0, 1)], [(0, 1)], fun _ => 1, 1⟩, [], .euler, 0⟩],
     true⟩
    (fun _ _ => ((0, 0), fun _ => 0)) 3
    (by norm_num) (by norm_num) (by norm_num [localVolume])

/-! ## Timestep-driver helper lemmas -/

theorem sendRecvGo_globalSums {dim : Nat} (tc : Bool)
    (recs : List (List (WireRec dim))) :
    ∀ (ws : List (Worker dim)) (st : Nat),
      (sendRecvGo tc recs st ws).map (fun w => w.globalSum)
        = ws.map (fun w => w.globalSum) := by
  intro ws
  induction ws with
  | nil => intro st; rfl
  | cons w rest ih =>
      intro st
      simp only [sendRecvGo, List.map_cons]
      rw [(processRecv_spec tc w _).2.1, ih]

theorem sendRecv_globalSums {dim : Nat} (g : Global dim) :
    (sendRecv g).workers.map (fun w => w.globalSum)
      = g.workers.map (fun w => w.globalSum) := by
  show (sendRecvGo g.triChanged ((g.workers.map extractLeaving).map (fun e => e.2))
      0 ((g.workers.map extractLeaving).map (fun e => e.1))).map (fun w => w.globalSum)
    = g.workers.map (fun w => w.globalSum)
  rw [sendRecvGo_globalSums]
  simp only [List.map_map]
  exact List.map_congr_left (fun w _ => rfl)

theorem advanceLoop_globalSums {dim : Nat} (vf : VField dim) (dt : ℚ) :
    ∀ (fuel : Nat) (g g' : Global dim), advanceLoop vf dt fuel g = .ok g' →
      g'.workers.map (fun w => w.globalSum)
        = g.workers.map (fun w => w.globalSum) := by
  intro fuel
  induction fuel with
  | zero => intro g g' h; simp [advanceLoop] at h
  | succ n ih =>
      intro g g' h
      simp only [advanceLoop] at h
      split at h
      · exact Except.noConfusion h
      · split at h
        · rw [ih _ _ h, sendRecv_globalSums]
          simp only [List.map_map]
          exact List.map_congr_left (fun w _ => rfl)
        · have h2 := Except.ok.inj h
          subst h2
          rw [sendRecv_globalSums]
          simp only [List.map_map]
          exact List.map_congr_left (fun w _ => rfl)

theorem advanceTimestepBody_globalSums {dim : Nat} (vf : VField dim) (dt : ℚ)
    (fuel : Nat) (g g' : Global dim)
    (h : advanceTimestepBody vf dt fuel g = .ok g') :
    g'.workers.map (fun w => w.globalSum)
      = g.workers.map (fun w => w.globalSum) := by
  unfold advanceTimestepBody at h
  rw [advanceLoop_globalSums vf dt fuel _ _ h]
  cases htc : g.triChanged with
  | true =>
      rw [if_pos rfl, sendRecv_globalSums]
      simp only [List.map_map]
      exact List.map_congr_left (fun w _ => rfl)
  | false =>
      rw [if_neg Bool.false_ne_true]
      simp only [List.map_map]
      exact List.map_congr_left (fun w _ => rfl)

theorem checkParticleCount_ok {dim : Nat} (g g' : Global dim)
    (h : checkParticleCount g = .ok g') :
    g' = g ∧ ∀ w ∈ g.workers, ((globalCount g : ℚ)) = w.globalSum := by
  unfold checkParticleCount at h
  by_cases hc : g.workers.all (fun w => ((globalCount g : ℚ) == w.globalSum)) = true
  · rw [if_pos hc] at h
    refine ⟨(Except.ok.inj h).symm, ?_⟩
    intro w hw
    exact eq_of_beq (List.all_eq_true.mp hc w hw)
  · rw [if_neg hc] at h
    exact Except.noConfusion h

theorem checkParticleCount_mismatch {dim : Nat} (g : Global dim)
    (h : ¬ g.workers.all (fun w => ((globalCount g : ℚ) == w.globalSum)) = true) :
    checkParticleCount g = .error "Particle count unexpectedly changed." := by
  unfold checkParticleCount
  rw [if_neg h]

theorem advanceTimestep_ok_spec {dim : Nat} (vf : VField dim) (dt : ℚ)
    (fuel : Nat) (g g' : Global dim)
    (h : advanceTimestep vf dt fuel g = .ok g') :
    g'.workers.map (fun w => w.globalSum) = g.workers.map (fun w => w.globalSum)
    ∧ ∀ w ∈ g'.workers, ((globalCount g' : ℚ)) = w.globalSum := by
  unfold advanceTimestep at h
  cases hb : advanceTimestepBody vf dt fuel g with
  | error e =>
      rw [hb] at h
      have hcontra : (Except.error e : Except String (Global dim)) = .ok g' := h
      exact Except.noConfusion hcontra
  | ok gm =>
      rw [hb] at h
      have h2 : checkParticleCount gm = .ok g' := h
      obtain ⟨hgg, hall⟩ := checkParticleCount_ok gm g' h2
      subst hgg
      exact ⟨advanceTimestepBody_globalSums vf dt fuel g g' hb, hall⟩

theorem genWorkers_length {dim : Nat} (places : Nat → Nat → LevelInd × Pt dim)
    (total : Nat) (tv : ℚ) :
    ∀ (ws : List (Worker dim)) (rank : Nat) (acc : ℚ),
      (genWorkers places total tv rank acc ws).length = ws.length := by
  intro ws
  induction ws with
  | nil => intro rank acc; rfl
  | cons w rest ih =>
      intro rank acc
      simp only [genWorkers, List.length_cons, ih]

theorem globalAddParticles_ok_spec {dim : Nat}
    (places : Nat → Nat → LevelInd × Pt dim) (total : Nat)
    (g g' : Global dim) (h : globalAddParticles places total g = .ok g') :
    (∀ w ∈ g'.workers, w.globalSum = (total : ℚ))
    ∧ g'.workers.length = g.workers.length := by
  unfold globalAddParticles at h
  by_cases hc : (g.workers.any
      (fun w => w.mesh.activeCells.any (fun c => w.mesh.measure c == 0))) = true
  · rw [if_pos hc] at h
    exact Except.noConfusion h
  · rw [if_neg hc] at h
    have h2 := Except.ok.inj h
    subst h2
    constructor
    · intro w hw
      exact genWorkers_globalSum places total _ g.workers 0 0 w hw
    · exact genWorkers_length places total _ g.workers 0 0

/-! ## Claim theorem: the conservation invariant -/

/-- C1: for every sequence of `advance_timestep` calls after a
`generate_global_particles(total_count)` call, the global particle count
(sum of local population sizes across all workers) at the end of each
completed `advance_timestep` equals `total_count`; `advance_timestep`
verifies this via `check_particle_count` as its final action, and a
mismatch is fatal (the run aborts with the count-invariant diagnostic)
rather than being silently ignored. -/
theorem advance_timestep_conservation {dim : Nat}
    (places : Nat → Nat → LevelInd × Pt dim) (total : Nat)
    (g0 g1 : Global dim) (fuel : Nat)
    (hgen : globalAddParticles places total g0 = .ok g1)
    (hne : g0.workers ≠ []) :
    (∀ (steps : List (VField dim × ℚ)) (g2 : Global dim),
        runAdvances fuel steps g1 = .ok g2 → steps ≠ [] → globalCount g2 = total)
    ∧ (∀ (vf : VField dim) (dt : ℚ) (f : Nat) (g : Global dim),
        advanceTimestep vf dt f g
          = advanceTimestepBody vf dt f g >>= checkParticleCount)
    ∧ (∀ g : Global dim,
        ¬ g.workers.all (fun w => ((globalCount g : ℚ) == w.globalSum)) = true →
        checkParticleCount g = .error "Particle count unexpectedly changed.") := by
  obtain ⟨hsum1, hlen1⟩ := globalAddParticles_ok_spec places total g0 g1 hgen
  have hne1 : g1.workers ≠ [] := by
    intro hnil
    apply hne
    rw [hnil] at hlen1
    exact List.length_eq_zero.mp hlen1.symm
  have hstep : ∀ (vf : VField dim) (dt : ℚ) (g g' : Global dim),
      g.workers ≠ [] → (∀ w ∈ g.workers, w.globalSum = (total : ℚ)) →
      advanceTimestep vf dt fuel g = .ok g' →
      g'.workers ≠ [] ∧ (∀ w ∈ g'.workers, w.globalSum = (total : ℚ))
        ∧ globalCount g' = total := by
    intro vf dt g g' hn hs h
    obtain ⟨hmap, hall⟩ := advanceTimestep_ok_spec vf dt fuel g g' h
    have hn' : g'.workers ≠ [] := by
      intro hnil
      apply hn
      rw [hnil] at hmap
      exact List.map_eq_nil_iff.mp hmap.symm
    have hs' : ∀ w ∈ g'.workers, w.globalSum = (total : ℚ) := by
      intro w hw
      have hmem : w.globalSum ∈ g.workers.map (fun w => w.globalSum) := by
        rw [← hmap]
        exact List.mem_map_of_mem _ hw
      simp only [List.mem_map] at hmem
      obtain ⟨x, hx, hxe⟩ := hmem
      rw [← hxe]
      exact hs x hx
    refine ⟨hn', hs', ?_⟩
    obtain ⟨w, hw⟩ := List.exists_mem_of_ne_nil g'.workers hn'
    have hc := hall w hw
    rw [hs' w hw] at hc
    exact_mod_cast hc
  have hmain : ∀ (steps : List (VField dim × ℚ)) (g g2 : Global dim),
      g.workers ≠ [] → (∀ w ∈ g.workers, w.globalSum = (total : ℚ)) →
      runAdvances fuel steps g = .ok g2 →
      g2.workers ≠ [] ∧ (∀ w ∈ g2.workers, w.globalSum = (total : ℚ))
        ∧ (steps ≠ [] → globalCount g2 = total) := by
    intro steps
    induction steps with
    | nil =>
        intro g g2 hn hs h
        have h2 : g = g2 := Except.ok.inj h
        subst h2
        exact ⟨hn, hs, fun hca => absurd rfl hca⟩
    | cons sd rest ih =>
        intro g g2 hn hs h
        obtain ⟨vf, dt⟩ := sd
        unfold runAdvances at h
        cases ha : advanceTimestep vf dt fuel g with
        | error e =>
            rw [ha] at h
            have hcontra : (Except.error e : Except String (Global dim)) = .ok g2 := h
            exact Except.noConfusion hcontra
        | ok gm =>
            rw [ha] at h
            have h2 : runAdvances fuel rest gm = .ok g2 := h
            obtain ⟨hn2, hs2, hcount⟩ := hstep vf dt g gm hn hs ha
            have hr := ih gm g2 hn2 hs2 h2
            refine ⟨hr.1, hr.2.1, fun _ => ?_⟩
            cases rest with
            | nil =>
                have h3 : gm = g2 := Except.ok.inj h2
                rw [← h3]
                exact hcount
            | cons b r2 => exact hr.2.2 (by simp)
  refine ⟨?_, ?_, ?_⟩
  · intro steps g2 hrun hne2
    exact (hmain steps g1 g2 hne1 (fun w hw => hsum1 w hw) hrun).2.2 hne2
  · intro vf dt f g
    rfl
  · intro g hg
    exact checkParticleCount_mismatch g hg

/-- C1 witness: a one-worker world generates one particle and survives
one Euler `advance_timestep` with the global count still 1. -/
theorem advance_timestep_conservation_witness :
    globalCount
      (⟨[⟨⟨fun c => c == (0, 0), fun _ _ => true, fun _ => true, fun _ => true,
           fun _ => [], [(0, 0)], [(0, 0)], fun _ => 1, 1⟩,
         [((0, 0), ⟨0, fun _ => 0, 0, true⟩)], .euler, 1⟩], false⟩ : Global 1) = 1 :=
  (advance_timestep_conservation (fun _ _ => ((0, 0), fun _ => 0)) 1
      (⟨[⟨⟨fun c => c == (0, 0), fun _ _ => true, fun _ => true, fun _ => true,
           fun _ => [], [(0, 0)], [(0, 0)], fun _ => 1, 1⟩, [], .euler, 0⟩], false⟩
        : Global 1)
      ⟨[⟨⟨fun c => c == (0, 0), fun _ _ => true, fun _ => true, fun _ => true,
           fun _ => [], [(0, 0)], [(0, 0)], fun _ => 1, 1⟩,
         [((0, 0), ⟨0, fun _ => 0, 0, true⟩)], .euler, 1⟩], false⟩
      1
      (by with_unfolding_all rfl) (by simp)).1
    [(fun _ _ => (fun _ => 0), 1)]
    ⟨[⟨⟨fun c => c == (0, 0), fun _ _ => true, fun _ => true, fun _ => true,
         fun _ => [], [(0, 0)], [(0, 0)], fun _ => 1, 1⟩,
       [((0, 0), ⟨0, fun _ => 0, 0, true⟩)], .euler, 1⟩], false⟩
    (by with_unfolding_all rfl) (by simp)

end Aspect
